import Mathlib

/-!
Verification of the go-duckdb value-conversion layer against its
natural-language specification.

The Go source is shallowly embedded: machine integers become `Nat`/`Int`
with explicit reductions modulo `2 ^ w`, `*big.Int` becomes `Int`,
fallible functions return `Except`, and raw engine memory (vector data
buffers, validity bitmaps) becomes explicit lists and functions.
A Go runtime panic (out-of-range slice index) is modelled as `none`.
-/

set_option maxRecDepth 4000

namespace GoDuckDB

/-! ## WideNumeric: HugeInt (src/types.go)

`mapping.HugeInt` is the engine's 128-bit signed integer, a pair of
(lower 64 bits unsigned, upper 64 bits signed); value = upper * 2^64 + lower. -/

/-- The engine's 128-bit integer: `lower` is a `uint64` (a `Nat` below `2 ^ 64`),
`upper` is an `int64` (an `Int` in the signed 64-bit range). The fields hold
whatever the constructing code put there; range facts are proved, not assumed. -/
structure HugeInt where
  lower : Nat
  upper : Int
  deriving DecidableEq

/-- Errors produced by `hugeIntFromNative` (`fmt.Errorf("big.Int(%s) is too big for HUGEINT", ...)`). -/
inductive RangeErr where
  | tooBigForHugeInt (v : Int)
  deriving DecidableEq

/-- `(*big.Int).IsInt64` from Go's math/big: whether the value fits a signed 64-bit integer. -/
def bigIntIsInt64 (q : Int) : Bool :=
  decide (-(2 ^ 63) ≤ q ∧ q ≤ 2 ^ 63 - 1)

/-- `hugeIntToNative` (types.go:81): `upper` shifted left 64 bits plus the
unsigned `lower`. Total: it never fails. -/
def hugeIntToNative (h : HugeInt) : Int :=
  h.upper * 2 ^ 64 + (h.lower : Int)

/-- `hugeIntFromNative` (types.go:89): Euclidean `DivMod` by `2 ^ 64`
(Go's `big.Int.DivMod`, matching Lean's `/` and `%` on `Int`), failing when
the quotient does not fit in an `int64`. -/
def hugeIntFromNative (i : Int) : Except RangeErr HugeInt :=
  let d : Int := 2 ^ 64
  let q := i / d
  let r := i % d
  if bigIntIsInt64 q then .ok ⟨r.toNat, q⟩
  else .error (.tooBigForHugeInt i)

end GoDuckDB

namespace GoDuckDB

theorem pow64 : (2 : Int) ^ 64 = 18446744073709551616 := by norm_num

theorem pow63 : (2 : Int) ^ 63 = 9223372036854775808 := by norm_num

theorem pow127 : (2 : Int) ^ 127 = 170141183460469231731687303715884105728 := by norm_num

/-- C3: converting a big integer to the engine's 128-bit representation succeeds,
with value = upper * 2^64 + lower, exactly on the signed 128-bit range
-2^127 .. 2^127-1, and fails with a RangeError outside it. -/
theorem hugeIntFromNative_spec (v : Int) :
    ((-(2 ^ 127) ≤ v ∧ v ≤ 2 ^ 127 - 1) →
      ∃ h, hugeIntFromNative v = .ok h ∧ h.upper * 2 ^ 64 + (h.lower : Int) = v) ∧
    ((v < -(2 ^ 127) ∨ 2 ^ 127 - 1 < v) →
      hugeIntFromNative v = .error (.tooBigForHugeInt v)) := by
  unfold hugeIntFromNative bigIntIsInt64
  simp only [pow64, pow63, pow127] at *
  constructor
  · intro hv
    have hq : (-9223372036854775808 ≤ v / 18446744073709551616 ∧
        v / 18446744073709551616 ≤ 9223372036854775808 - 1) := by omega
    refine ⟨⟨(v % 18446744073709551616).toNat, v / 18446744073709551616⟩, ?_, ?_⟩
    · simp only [decide_eq_true_eq, if_pos hq]
    · simp only
      omega
  · intro hv
    have hq : ¬ (-9223372036854775808 ≤ v / 18446744073709551616 ∧
        v / 18446744073709551616 ≤ 9223372036854775808 - 1) := by omega
    simp only [decide_eq_true_eq, if_neg hq]

/-- Witness for C3 at the extreme inputs: the maximum signed 128-bit integer
succeeds and 2^127 fails. -/
theorem hugeIntFromNative_spec_witness :
    (∃ h, hugeIntFromNative (2 ^ 127 - 1) = .ok h ∧
      h.upper * 2 ^ 64 + (h.lower : Int) = 2 ^ 127 - 1) ∧
    hugeIntFromNative (2 ^ 127) = .error (.tooBigForHugeInt (2 ^ 127)) :=
  ⟨(hugeIntFromNative_spec (2 ^ 127 - 1)).1 (by norm_num),
   (hugeIntFromNative_spec (2 ^ 127)).2 (by norm_num)⟩

/-- `binary.BigEndian.Uint64` from Go's encoding/binary: read 8 bytes as a
big-endian unsigned 64-bit integer. Only called on 8-byte slices. -/
def beUint64 : List Nat → Nat
  | [b0, b1, b2, b3, b4, b5, b6, b7] =>
      ((((((b0 * 256 + b1) * 256 + b2) * 256 + b3) * 256 + b4) * 256 + b5) * 256 + b6) * 256 + b7
  | _ => 0

/-- `binary.BigEndian.PutUint64` from Go's encoding/binary: write an unsigned
64-bit integer as 8 big-endian bytes. -/
def putUint64BE (x : Nat) : List Nat :=
  [x / 2 ^ 56 % 256, x / 2 ^ 48 % 256, x / 2 ^ 40 % 256, x / 2 ^ 32 % 256,
   x / 2 ^ 24 % 256, x / 2 ^ 16 % 256, x / 2 ^ 8 % 256, x % 256]

/-- Go's `uint64(x)` conversion of an `int64`: two's-complement reinterpretation. -/
def uint64OfInt64 (i : Int) : Nat :=
  (i % 2 ^ 64).toNat

/-- Go's `int64(x)` conversion of a `uint64`: two's-complement reinterpretation. -/
def int64OfUInt64 (n : Nat) : Int :=
  if n < 2 ^ 63 then (n : Int) else (n : Int) - 2 ^ 64

/-- `uuidToHugeInt` (types.go:74): lower 64 bits from UUID bytes 8..16
big-endian, upper from bytes 0..8 big-endian with the sign bit flipped,
reinterpreted as a signed 64-bit integer. -/
def uuidToHugeInt (u : List Nat) : HugeInt :=
  ⟨beUint64 (u.drop 8), int64OfUInt64 (beUint64 (u.take 8) ^^^ 2 ^ 63)⟩

/-- `hugeIntToUUID` (types.go:65): write `uint64(upper) ^ 1<<63` big-endian
into bytes 0..8 and `lower` big-endian into bytes 8..16. -/
def hugeIntToUUID (h : HugeInt) : List Nat :=
  putUint64BE (uint64OfInt64 h.upper ^^^ 2 ^ 63) ++ putUint64BE h.lower

theorem putUint64BE_beUint64 (b0 b1 b2 b3 b4 b5 b6 b7 : Nat)
    (h0 : b0 < 256) (h1 : b1 < 256) (h2 : b2 < 256) (h3 : b3 < 256)
    (h4 : b4 < 256) (h5 : b5 < 256) (h6 : b6 < 256) (h7 : b7 < 256) :
    putUint64BE (beUint64 [b0, b1, b2, b3, b4, b5, b6, b7]) = [b0, b1, b2, b3, b4, b5, b6, b7] := by
  simp only [putUint64BE, beUint64, List.cons.injEq, and_true]
  norm_num
  refine ⟨?_, ?_, ?_, ?_, ?_, ?_, ?_, ?_⟩ <;> omega

theorem beUint64_lt (b0 b1 b2 b3 b4 b5 b6 b7 : Nat)
    (h0 : b0 < 256) (h1 : b1 < 256) (h2 : b2 < 256) (h3 : b3 < 256)
    (h4 : b4 < 256) (h5 : b5 < 256) (h6 : b6 < 256) (h7 : b7 < 256) :
    beUint64 [b0, b1, b2, b3, b4, b5, b6, b7] < 2 ^ 64 := by
  simp only [beUint64]
  norm_num
  omega

theorem uint64OfInt64_int64OfUInt64 (n : Nat) (h : n < 2 ^ 64) :
    uint64OfInt64 (int64OfUInt64 n) = n := by
  unfold uint64OfInt64 int64OfUInt64
  have hn : (2 : Nat) ^ 64 = 18446744073709551616 := by norm_num
  have hn63 : (2 : Nat) ^ 63 = 9223372036854775808 := by norm_num
  rw [hn] at h
  rw [hn63, pow64]
  split <;> omega

/-- C5: UUID conversion round trip: converting 16 UUID bytes to the engine's
128-bit integer (flipping the sign bit of the big-endian high 64 bits) and
back returns exactly the original bytes. -/
theorem hugeIntToUUID_uuidToHugeInt (u : List Nat)
    (hlen : u.length = 16) (hbytes : ∀ b ∈ u, b < 256) :
    hugeIntToUUID (uuidToHugeInt u) = u := by
  rcases u with _ | ⟨b0, u⟩; · simp at hlen
  rcases u with _ | ⟨b1, u⟩; · simp at hlen
  rcases u with _ | ⟨b2, u⟩; · simp at hlen
  rcases u with _ | ⟨b3, u⟩; · simp at hlen
  rcases u with _ | ⟨b4, u⟩; · simp at hlen
  rcases u with _ | ⟨b5, u⟩; · simp at hlen
  rcases u with _ | ⟨b6, u⟩; · simp at hlen
  rcases u with _ | ⟨b7, u⟩; · simp at hlen
  rcases u with _ | ⟨b8, u⟩; · simp at hlen
  rcases u with _ | ⟨b9, u⟩; · simp at hlen
  rcases u with _ | ⟨b10, u⟩; · simp at hlen
  rcases u with _ | ⟨b11, u⟩; · simp at hlen
  rcases u with _ | ⟨b12, u⟩; · simp at hlen
  rcases u with _ | ⟨b13, u⟩; · simp at hlen
  rcases u with _ | ⟨b14, u⟩; · simp at hlen
  rcases u with _ | ⟨b15, u⟩; · simp at hlen
  rcases u with _ | ⟨b16, u⟩
  · simp only [List.forall_mem_cons] at hbytes
    obtain ⟨h0, h1, h2, h3, h4, h5, h6, h7, h8, h9, h10, h11, h12, h13, h14, h15, -⟩ := hbytes
    have ht : List.take 8 [b0, b1, b2, b3, b4, b5, b6, b7, b8, b9, b10, b11, b12, b13, b14, b15]
        = [b0, b1, b2, b3, b4, b5, b6, b7] := rfl
    have hd : List.drop 8 [b0, b1, b2, b3, b4, b5, b6, b7, b8, b9, b10, b11, b12, b13, b14, b15]
        = [b8, b9, b10, b11, b12, b13, b14, b15] := rfl
    simp only [uuidToHugeInt, hugeIntToUUID, ht, hd]
    have hlt : beUint64 [b0, b1, b2, b3, b4, b5, b6, b7] ^^^ 2 ^ 63 < 2 ^ 64 :=
      Nat.xor_lt_two_pow (beUint64_lt b0 b1 b2 b3 b4 b5 b6 b7 h0 h1 h2 h3 h4 h5 h6 h7)
        (by norm_num)
    rw [uint64OfInt64_int64OfUInt64 _ hlt, Nat.xor_cancel_right,
      putUint64BE_beUint64 b0 b1 b2 b3 b4 b5 b6 b7 h0 h1 h2 h3 h4 h5 h6 h7,
      putUint64BE_beUint64 b8 b9 b10 b11 b12 b13 b14 b15 h8 h9 h10 h11 h12 h13 h14 h15]
    rfl
  · simp at hlen

/-- Witness for C5 on a concrete 16-byte UUID. -/
theorem hugeIntToUUID_uuidToHugeInt_witness :
    hugeIntToUUID (uuidToHugeInt
      [171, 0, 1, 255, 16, 32, 64, 128, 7, 9, 200, 250, 3, 5, 254, 42])
      = [171, 0, 1, 255, 16, 32, 64, 128, 7, 9, 200, 250, 3, 5, 254, 42] :=
  hugeIntToUUID_uuidToHugeInt
    [171, 0, 1, 255, 16, 32, 64, 128, 7, 9, 200, 250, 3, 5, 254, 42]
    (by decide) (by decide)

/-- C4: `hugeIntToNative` inverts `hugeIntFromNative` on the whole signed
128-bit range (and `hugeIntToNative` is a total function, so it never fails). -/
theorem hugeIntToNative_inverse (v : Int)
    (h1 : -(2 ^ 127) ≤ v) (h2 : v ≤ 2 ^ 127 - 1) :
    ∃ h, hugeIntFromNative v = .ok h ∧ hugeIntToNative h = v := by
  obtain ⟨h, hok, hval⟩ := (hugeIntFromNative_spec v).1 ⟨h1, h2⟩
  exact ⟨h, hok, hval⟩

/-- Witness for C4 at the minimum signed 128-bit integer. -/
theorem hugeIntToNative_inverse_witness :
    ∃ h, hugeIntFromNative (-(2 ^ 127)) = .ok h ∧ hugeIntToNative h = -(2 ^ 127) :=
  hugeIntToNative_inverse (-(2 ^ 127)) (by norm_num) (by norm_num)

/-! ## Decimal.String (src/types.go:187) -/

/-- Decimal (types.go:172): total width, scale, and the unscaled `*big.Int` value.
The Go fields are `uint8`; their values live in 0..255 and are modelled as `Nat`. -/
structure Decimal where
  Width : Nat
  Scale : Nat
  Value : Int
  deriving DecidableEq

/-- Decimal digits of a natural number, most significant first: the digits of
`(*big.Int).String()` once the sign is removed. -/
def natDigs (n : Nat) : List Char :=
  Nat.toDigits 10 n

/-- `strings.TrimRightFunc(s, r == '0')`: drop all trailing zero characters. -/
def trimRightZeros (s : List Char) : List Char :=
  (s.reverse.dropWhile (fun c => c == '0')).reverse

/-- `Decimal.String` (types.go:187), on the character-list form of the result.
`scaleless` is `d.Value.String()` with the sign character removed, i.e. the
digits of `|Value|`; the sign prefix is re-attached per branch as in the source. -/
def Decimal.String (d : Decimal) : List Char :=
  if d.Value = 0 then ['0']
  else
    let signStr : List Char := if d.Value < 0 then ['-'] else []
    let scaleless := natDigs d.Value.natAbs
    let zeroTrimmed := trimRightZeros scaleless
    let scale : Int := (d.Scale : Int) - ((scaleless.length : Int) - (zeroTrimmed.length : Int))
    if scale ≤ 0 then
      signStr ++ zeroTrimmed ++ List.replicate (-1 * scale).toNat '0'
    else if (zeroTrimmed.length : Int) ≤ scale then
      signStr ++ ['0', '.'] ++ List.replicate (scale.toNat - zeroTrimmed.length) '0' ++ zeroTrimmed
    else
      signStr ++ zeroTrimmed.take (zeroTrimmed.length - scale.toNat) ++ ['.']
        ++ zeroTrimmed.drop (zeroTrimmed.length - scale.toNat)

/-- C6: the three Decimal.String examples from the spec, verbatim. -/
theorem Decimal_String_examples :
    Decimal.String ⟨18, 8, -705399⟩ = "-0.00705399".data ∧
    Decimal.String ⟨18, 0, 0⟩ = "0".data ∧
    Decimal.String ⟨18, 1, 1234567890⟩ = "123456789".data := by
  refine ⟨?_, ?_, ?_⟩ <;> decide

end GoDuckDB

namespace GoDuckDB

/-! ## TemporalCodec: getTSTicks (src/types.go:228) -/

/-- The timestamp members of the `Type` enumeration that `getTSTicks` dispatches on. -/
inductive DType where
  | TYPE_TIMESTAMP
  | TYPE_TIMESTAMP_S
  | TYPE_TIMESTAMP_MS
  | TYPE_TIMESTAMP_NS
  | TYPE_TIMESTAMP_TZ
  deriving DecidableEq

/-- Model of Go's `time.Time` through the accessors `getTSTicks` uses: the
calendar year and the epoch tick counts at each precision. The accessors are
library calls, so they appear as opaque fields. -/
structure GoTime where
  year : Int
  unix : Int
  unixMilli : Int
  unixMicro : Int
  unixNano : Int
  deriving DecidableEq

/-- A value handed to `castToTime`: either a `time.Time` or something else
(which only carries its type name, used in the cast error). -/
inductive TimeValue where
  | time (t : GoTime)
  | other (typeName : String)
  deriving DecidableEq

/-- Errors out of `getTSTicks`: `castError(from, to)` or
`conversionError(value, lower, upper)`. -/
inductive ConvErr where
  | castError (src dst : String)
  | conversionError (value lower upper : Int)
  deriving DecidableEq

/-- `castToTime` (types.go:217): succeed on a `time.Time` (normalizing to UTC,
which leaves every accessor modelled here unchanged), fail with a cast error
otherwise. -/
def castToTime : TimeValue → Except ConvErr GoTime
  | .time t => .ok t
  | .other name => .error (.castError name "time.Time")

/-- `getTSTicks` (types.go:228): epoch ticks at the precision selected by the
type tag, with the year-range validation and error arguments exactly as in the
source (note the NS branch passes `-290307, 294246` to `conversionError`). -/
def getTSTicks (t : DType) (val : TimeValue) : Except ConvErr Int :=
  match castToTime val with
  | .error e => .error e
  | .ok ti =>
    if t = .TYPE_TIMESTAMP_S then .ok ti.unix
    else if t = .TYPE_TIMESTAMP_MS then .ok ti.unixMilli
    else
      let year := ti.year
      if t = .TYPE_TIMESTAMP ∨ t = .TYPE_TIMESTAMP_TZ then
        if year < -290307 ∨ year > 294246 then .error (.conversionError year (-290307) 294246)
        else .ok ti.unixMicro
      else
        if year < 1678 ∨ year > 2262 then .error (.conversionError year (-290307) 294246)
        else .ok ti.unixNano

/-- C2 (code evaluated at the failing input): encoding a year-1000 time as a
nanosecond timestamp fails, but the ConversionError carries the
microsecond-precision bounds -290307 and 294246, not the nanosecond bounds
1678 and 2262 the claim requires. -/
theorem getTSTicks_ns_reports_micro_bounds :
    getTSTicks .TYPE_TIMESTAMP_NS (.time ⟨1000, 0, 0, 0, 0⟩)
      = .error (.conversionError 1000 (-290307) 294246) ∧
    getTSTicks .TYPE_TIMESTAMP_NS (.time ⟨1000, 0, 0, 0, 0⟩)
      ≠ .error (.conversionError 1000 1678 2262) := by
  refine ⟨rfl, ?_⟩
  intro h
  simp [getTSTicks, castToTime] at h

/-! ## VectorCodec getters (vector read path) -/

/-- The fields of the source's `vector` struct that the getters below read.
`maskPtr` is the validity bitmap: `none` models a nil pointer, and `some m`
models `mapping.ValidityMaskValueIsValid` applied to the mask at each row.
`tagData` is the int8 data buffer of the union's tag child vector
(`StructVectorGetChild(vec.vec, 0)`), `structEntries` the member names, and
`childVectors` each child vector's bound `getFn`. -/
structure vector (α : Type) where
  maskPtr : Option (Nat → Bool)
  tagData : List Int
  structEntries : List String
  childVectors : List (Nat → α)

/-- `vector.getNull` (the null check run before every typed decode): a nil
validity-mask pointer means not null; otherwise negate the mask's validity bit. -/
def getNull (vec : vector α) (rowIdx : Nat) : Bool :=
  match vec.maskPtr with
  | none => false
  | some mask => !(mask rowIdx)

/-- C10: a vector without a validity bitmap never reports any row as null. -/
theorem getNull_nil_mask {α : Type} (vec : vector α) (rowIdx : Nat)
    (h : vec.maskPtr = none) : getNull vec rowIdx = false := by
  unfold getNull
  rw [h]

/-- Witness for C10 on a concrete nil-mask vector. -/
theorem getNull_nil_mask_witness :
    getNull (α := Nat) ⟨none, [], [], []⟩ 3 = false :=
  getNull_nil_mask ⟨none, [], [], []⟩ 3 rfl

/-- `Union` (types.go:117): active member name and value. -/
structure Union (α : Type) where
  MemberName : String
  MemberValue : α
  deriving DecidableEq

/-- A Go slice index `l[i]` with an `int` index: panics (modelled `none`) when
`i` is negative or past the end. -/
def sliceGet (l : List β) (i : Int) : Option β :=
  if i < 0 then none else l.get? i.toNat

/-- `vector.getUnion`: read the int8 tag from the tag child's buffer, then read
member name and value at that tag. The source's bounds check on the tag
(`if tagIdx < 0 || tagIdx >= len(vec.structEntries)`) is commented out — dead
code — so decoding proceeds unconditionally and an out-of-range tag makes the
`childVectors`/`structEntries` indexing panic (modelled as `none`). -/
def getUnion (vec : vector α) (rowIdx : Nat) : Option (Union α) := do
  let tagByte ← vec.tagData.get? rowIdx
  let tagIdx : Int := tagByte
  let childVecIdx := tagIdx + 1
  let child ← sliceGet vec.childVectors childVecIdx
  let value := child rowIdx
  let name ← sliceGet vec.structEntries tagIdx
  pure ⟨name, value⟩

/-- A union vector with two members (`int_val`, `str_val`), three child vectors
(tag child plus one per member), and a corrupt tag byte 5 at row 0. -/
def unionVecOutOfRange : vector Nat :=
  ⟨none, [5], ["int_val", "str_val"], [fun _ => 0, fun _ => 1, fun _ => 2]⟩

/-- C1 (code evaluated at the failing input): decoding a union row whose tag (5) is outside
`0 ≤ tag < memberCount` (2) produces a panic (modelled `none`) — there is no
DecodeError return anywhere in `getUnion`; its result type carries no error. -/
theorem getUnion_out_of_range_tag_panics :
    getUnion unionVecOutOfRange 0 = none := by
  rfl

/-- `vector.getJSON`: read the cell's text and `json.Unmarshal` it into a
generic value, discarding the error (`_ =`): on a parse failure the decoded
value stays absent (`nil`, modelled `none`). `json.Unmarshal` is the Go
standard library, external to this repository, so it appears as a parameter. -/
def getJSON (α : Type) (unmarshal : String → Except String α) (bytes : String) : Option α :=
  match unmarshal bytes with
  | .ok value => some value
  | .error _ => none

/-- C8: JSON cell decoding never propagates an error: a failed parse yields the
absent value `none` and a successful parse yields the parsed tree, whatever the
parser does. -/
theorem getJSON_soft_fail (α : Type) (unmarshal : String → Except String α) (bytes : String) :
    (∀ e, unmarshal bytes = .error e → getJSON α unmarshal bytes = none) ∧
    (∀ v, unmarshal bytes = .ok v → getJSON α unmarshal bytes = some v) := by
  unfold getJSON
  constructor <;> intro x hx <;> rw [hx]

/-- Witness for C8 with a concrete failing parser and a concrete succeeding one. -/
theorem getJSON_soft_fail_witness :
    getJSON Nat (fun _ => .error "invalid character") "not valid json" = none ∧
    getJSON Nat (fun _ => .ok 7) "7" = some 7 :=
  ⟨(getJSON_soft_fail Nat (fun _ => .error "invalid character") "not valid json").1
      "invalid character" rfl,
   (getJSON_soft_fail Nat (fun _ => .ok 7) "7").2 7 rfl⟩

end GoDuckDB

namespace GoDuckDB

/-! ## RowBatcher: Appender (src/appender.go)

The engine handle operations (`initFromTypes` chunk allocation, `SetSize`,
`mapping.AppendDataChunk`, `mapping.AppenderFlush`, `AppenderDestroy`) are
external native calls; allocation is modelled as succeeding, and the fallible
flush/destroy outcomes of `Close` appear as explicit `Option String` inputs.
A chunk is modelled by its written rows (row index = list position);
`chunk.SetValue(i, rowCount, val)` over all columns `i` of one row is one
write of the whole row at index `rowCount`, with value-conversion errors out
of scope of the claims proved here. -/

/-- The Appender state that the batching logic reads and writes: the closed
flag, the buffered data chunks, and the number of rows appended to the
current (last) chunk. -/
structure Appender (α : Type) where
  closed : Bool
  chunks : List (List (List α))
  rowCount : Nat
  deriving DecidableEq

/-- Appender errors: `columnCountError(got, expected)`,
`errAppenderDoubleClose`, and the joined `invalidatedAppenderError`. -/
inductive AppendErr where
  | columnCountError (got expected : Nat)
  | appenderDoubleClose
  | invalidatedAppender (errs : List String)
  deriving DecidableEq

/-- Write a row into a chunk at row index `idx`: within the already-written
prefix it overwrites, at the end it appends (the only reachable case, since
`rowCount` always equals the written length of the last chunk). -/
def chunkSetRow (rows : List (List α)) (idx : Nat) (r : List α) : List (List α) :=
  if idx = rows.length then rows ++ [r] else rows.set idx r

/-- Apply `f` to the last element: `&a.chunks[len(a.chunks)-1]`. -/
def updateLast : List β → (β → β) → List β
  | [], _ => []
  | [x], f => [f x]
  | x :: y :: xs, f => x :: updateLast (y :: xs) f

/-- `Appender.appendRowSlice` (appender.go:148): reject a column-count
mismatch; start a fresh chunk when none exists or the current one is at
`GetDataChunkCapacity()` (passed in as `capacity`), resetting the row counter;
write the row at the current row index of the last chunk; bump the counter. -/
def appendRowSlice (capacity ncols : Nat) (a : Appender α) (args : List α) :
    Except AppendErr (Appender α) :=
  if args.length ≠ ncols then .error (.columnCountError args.length ncols)
  else
    let a1 :=
      if a.rowCount = capacity ∨ a.chunks.length = 0 then
        { a with chunks := a.chunks ++ [([] : List (List α))], rowCount := 0 }
      else a
    let a2 := { a1 with chunks := updateLast a1.chunks (fun c => chunkSetRow c a1.rowCount args) }
    .ok { a2 with rowCount := a2.rowCount + 1 }

/-- `Appender.appendDataChunks` (appender.go:175): set every chunk's size —
full `capacity` for all but the last, `rowCount` for the last — and submit
them to the engine (returned here as (chunk, size) pairs); afterwards close
all chunks, truncate the chunk list, and zero the row counter. -/
def appendDataChunks (capacity : Nat) (a : Appender α) :
    List (List (List α) × Nat) × Appender α :=
  let submitted := a.chunks.enum.map
    (fun p => (p.2, if p.1 = a.chunks.length - 1 then a.rowCount else capacity))
  (submitted, { a with chunks := [], rowCount := 0 })

/-- `Appender.Close` (appender.go:94): a second close errors out immediately;
otherwise mark closed, append the remaining chunks, flush, destroy, and join
the step errors (`errors.Join` drops the nils). -/
def Appender.Close (capacity : Nat) (a : Appender α)
    (errAppend errFlush errDestroy : Option String) :
    Appender α × Except AppendErr Unit :=
  if a.closed then (a, .error .appenderDoubleClose)
  else
    let a1 := { a with closed := true }
    let a2 := (appendDataChunks capacity a1).2
    let errs := [errAppend, errFlush, errDestroy].filterMap id
    (a2, if errs.isEmpty then .ok () else .error (.invalidatedAppender errs))

/-- Iterated `appendRowSlice` over a list of rows. -/
def appendRows (capacity ncols : Nat) (a : Appender α) :
    List (List α) → Except AppendErr (Appender α)
  | [] => .ok a
  | r :: rs =>
    match appendRowSlice capacity ncols a r with
    | .error e => .error e
    | .ok a1 => appendRows capacity ncols a1 rs

end GoDuckDB

namespace GoDuckDB

/-- C9: the first Close marks the appender closed whatever the append, flush
and destroy steps report, and the second Close returns the double-close
lifecycle error. -/
theorem Appender_Close_spec {α : Type} (capacity capacity2 : Nat) (a : Appender α)
    (eA eF eD eA2 eF2 eD2 : Option String) (h : a.closed = false) :
    (Appender.Close capacity a eA eF eD).1.closed = true ∧
    (Appender.Close capacity2 (Appender.Close capacity a eA eF eD).1 eA2 eF2 eD2).2
      = .error .appenderDoubleClose := by
  simp [Appender.Close, appendDataChunks, h]

/-- Witness for C9: a fresh appender, with the flush step failing on the first
close; the appender still ends up closed and the second close reports the
double close. -/
theorem Appender_Close_spec_witness :
    (Appender.Close 2048 (⟨false, [], 0⟩ : Appender Nat) none (some "flush failed") none).1.closed
        = true ∧
    (Appender.Close 2048
        (Appender.Close 2048 (⟨false, [], 0⟩ : Appender Nat) none (some "flush failed") none).1
        none none none).2
      = .error .appenderDoubleClose :=
  Appender_Close_spec 2048 2048 ⟨false, [], 0⟩ none (some "flush failed") none none none none rfl

end GoDuckDB

namespace GoDuckDB

theorem updateLast_append_singleton (l : List β) (x : β) (f : β → β) :
    updateLast (l ++ [x]) f = l ++ [f x] := by
  induction l with
  | nil => rfl
  | cons a l ih =>
    cases l with
    | nil => rfl
    | cons c l2 =>
      simp only [List.cons_append]
      show a :: updateLast (c :: (l2 ++ [x])) f = a :: (c :: (l2 ++ [f x]))
      rw [show c :: (l2 ++ [x]) = (c :: l2) ++ [x] from rfl, ih]
      rfl

theorem appendRowSlice_mid {α : Type} (capacity ncols : Nat) (r : List α) (hr : r.length = ncols)
    (b : Bool) (C : List (List (List α))) (t : Nat) (ht1 : 1 ≤ t) (ht2 : t < capacity) :
    appendRowSlice capacity ncols ⟨b, C ++ [List.replicate t r], t⟩ r
      = .ok ⟨b, C ++ [List.replicate (t + 1) r], t + 1⟩ := by
  have hne : t ≠ capacity := Nat.ne_of_lt ht2
  simp [appendRowSlice, hr, hne, updateLast_append_singleton, chunkSetRow,
    List.replicate_succ']

theorem appendRows_fill {α : Type} (capacity ncols : Nat) (r : List α) (hr : r.length = ncols)
    (b : Bool) (s : Nat) :
    ∀ (C : List (List (List α))) (t : Nat), 1 ≤ t → t + s ≤ capacity →
    appendRows capacity ncols ⟨b, C ++ [List.replicate t r], t⟩ (List.replicate s r)
      = .ok ⟨b, C ++ [List.replicate (t + s) r], t + s⟩ := by
  induction s with
  | zero => intro C t _ _; simp [appendRows]
  | succ s ih =>
    intro C t ht1 hts
    rw [List.replicate_succ]
    simp only [appendRows]
    rw [appendRowSlice_mid capacity ncols r hr b C t ht1 (by omega)]
    show appendRows capacity ncols ⟨b, C ++ [List.replicate (t + 1) r], t + 1⟩
        (List.replicate s r) = _
    rw [ih C (t + 1) (by omega) (by omega), show t + 1 + s = t + (s + 1) from by omega]

theorem appendRows_boundary {α : Type} (capacity ncols : Nat) (r : List α)
    (hr : r.length = ncols) (b : Bool) (C : List (List (List α))) (rc : Nat)
    (hb : rc = capacity ∨ C.length = 0) (s : Nat) (hs1 : 1 ≤ s) (hs2 : s ≤ capacity) :
    appendRows capacity ncols ⟨b, C, rc⟩ (List.replicate s r)
      = .ok ⟨b, C ++ [List.replicate s r], s⟩ := by
  obtain ⟨s2, rfl⟩ : ∃ s2, s = s2 + 1 := ⟨s - 1, by omega⟩
  rw [List.replicate_succ]
  simp only [appendRows]
  have h1 : appendRowSlice capacity ncols (⟨b, C, rc⟩ : Appender α) r
      = .ok ⟨b, C ++ [[r]], 1⟩ := by
    simp [appendRowSlice, hr, if_pos hb, updateLast_append_singleton, chunkSetRow]
  rw [h1]
  show appendRows capacity ncols ⟨b, C ++ [[r]], 1⟩ (List.replicate s2 r) = _
  rw [show ([r] : List (List α)) = List.replicate 1 r from rfl,
    appendRows_fill capacity ncols r hr b s2 C 1 (by omega) (by omega),
    show 1 + s2 = s2 + 1 from by omega]
  rfl

theorem appendRows_append {α : Type} (capacity ncols : Nat) (a : Appender α)
    (xs ys : List (List α)) :
    appendRows capacity ncols a (xs ++ ys)
      = match appendRows capacity ncols a xs with
        | .error e => .error e
        | .ok a1 => appendRows capacity ncols a1 ys := by
  induction xs generalizing a with
  | nil => simp [appendRows]
  | cons x xs ih =>
    simp only [List.cons_append, appendRows]
    cases appendRowSlice capacity ncols a x with
    | error e => rfl
    | ok a1 => simpa using ih a1

theorem appendRows_full_chunks {α : Type} (capacity ncols : Nat) (r : List α)
    (hr : r.length = ncols) (hcap : 1 ≤ capacity) (b : Bool) (q : Nat) (hq : 1 ≤ q) :
    appendRows capacity ncols ⟨b, [], 0⟩ (List.replicate (capacity * q) r)
      = .ok ⟨b, List.replicate q (List.replicate capacity r), capacity⟩ := by
  induction q with
  | zero => omega
  | succ q ih =>
    rcases Nat.eq_zero_or_pos q with hq0 | hq1
    · subst hq0
      rw [Nat.mul_one]
      rw [appendRows_boundary capacity ncols r hr b [] 0 (Or.inr rfl) capacity hcap le_rfl]
      rfl
    · rw [show capacity * (q + 1) = capacity * q + capacity from by ring,
        List.replicate_add, appendRows_append, ih hq1]
      show appendRows capacity ncols
          ⟨b, List.replicate q (List.replicate capacity r), capacity⟩
          (List.replicate capacity r) = _
      rw [appendRows_boundary capacity ncols r hr b _ capacity (Or.inl rfl) capacity hcap
        le_rfl, ← List.replicate_succ']

/-- C7: from a fresh appender, appending capacity*3 + 10 rows leaves exactly 4
buffered chunks — the first three with capacity rows each, the last with 10 —
and the row counter at 10; appendDataChunks (the flush path) submits the
chunks with sizes capacity, capacity, capacity, 10 and resets to an empty
chunk list with row counter 0; the next appended row then allocates a fresh
chunk and lands at row index 0. -/
theorem Appender_batching {α : Type} (capacity ncols : Nat) (r : List α) (b : Bool)
    (hcap : 10 < capacity) (hr : r.length = ncols) :
    appendRows capacity ncols ⟨b, [], 0⟩ (List.replicate (capacity * 3 + 10) r)
      = .ok ⟨b, List.replicate 3 (List.replicate capacity r) ++ [List.replicate 10 r], 10⟩ ∧
    appendDataChunks capacity
        ⟨b, List.replicate 3 (List.replicate capacity r) ++ [List.replicate 10 r], 10⟩
      = ([(List.replicate capacity r, capacity), (List.replicate capacity r, capacity),
          (List.replicate capacity r, capacity), (List.replicate 10 r, 10)],
         ⟨b, [], 0⟩) ∧
    appendRowSlice capacity ncols ⟨b, [], 0⟩ r = .ok ⟨b, [[r]], 1⟩ := by
  refine ⟨?_, ?_, ?_⟩
  · rw [List.replicate_add, appendRows_append,
      appendRows_full_chunks capacity ncols r hr (by omega) b 3 (by omega)]
    show appendRows capacity ncols
        ⟨b, List.replicate 3 (List.replicate capacity r), capacity⟩
        (List.replicate 10 r) = _
    exact appendRows_boundary capacity ncols r hr b _ capacity (Or.inl rfl) 10 (by omega)
      (by omega)
  · simp [appendDataChunks, List.replicate, List.enum, List.enumFrom]
  · simp [appendRowSlice, hr, updateLast, chunkSetRow]

/-- Witness for C7 at capacity 11 with one integer column. -/
theorem Appender_batching_witness :
    appendRows 11 1 (⟨false, [], 0⟩ : Appender Nat) (List.replicate (11 * 3 + 10) [0])
      = .ok ⟨false, List.replicate 3 (List.replicate 11 [0]) ++ [List.replicate 10 [0]], 10⟩ :=
  (Appender_batching 11 1 [0] false (by norm_num) rfl).1

end GoDuckDB
